import Mathlib

/-!
Shallow embedding of the rate-limiting and caching core of the
Yahoo Fantasy Sports SDK (src/src/lib.rs).

Modelling conventions:
* Rust `f64` values (`tokens`, `max_tokens`, `refill_rate`) are modelled as
  exact rationals `ℚ`; the operations involved (addition, subtraction of 1,
  multiplication, `min`, comparisons) are the only ones the code uses.
* `Instant` (monotonic clock) and `SystemTime` (wall clock) are modelled as
  rationals measuring seconds; each operation that reads a clock takes the
  current reading `now` as an explicit argument.
* `Instant::duration_since` saturates at zero when the other instant is
  later, hence `max (now - last) 0`.
* `SystemTime::duration_since` returns `Err` when the wall clock reads
  earlier than the stored timestamp; `is_expired` maps that to `true` via
  `unwrap_or(true)`.
* `HashMap<String, CacheEntry>` is modelled as an association list with
  unique keys; `evict_oldest` removes the first entry in iteration order,
  which the model fixes as the list order.
* The `Mutex` wrappers disappear: each operation is a function on the
  guarded state record, matching the body of its critical section.
-/

namespace YahooFantasy

/-- The record guarded by the `RateLimiter` mutex (struct `RateLimiterState`). -/
structure RateLimiterState where
  tokens : ℚ
  max_tokens : ℚ
  refill_rate : ℚ
  last_refill : ℚ
  requests_count : ℕ
deriving Repr, DecidableEq

namespace RateLimiter

/-- `RateLimiter::new`: the constructor takes no configuration; it hardcodes
`tokens = max_tokens = 100.0`, `refill_rate = 0.83`, `requests_count = 0`,
and stamps `last_refill` with the construction instant `t0`. -/
def new (t0 : ℚ) : RateLimiterState :=
  { tokens := 100
    max_tokens := 100
    refill_rate := 0.83
    last_refill := t0
    requests_count := 0 }

/-- `RateLimiter::refill_tokens`: elapsed seconds since `last_refill`
(saturating at zero), times `refill_rate`, added to `tokens` and clamped to
`max_tokens`; `last_refill` becomes `now`. -/
def refill_tokens (now : ℚ) (s : RateLimiterState) : RateLimiterState :=
  let time_passed := max (now - s.last_refill) 0
  let tokens_to_add := time_passed * s.refill_rate
  { s with tokens := min s.max_tokens (s.tokens + tokens_to_add), last_refill := now }

/-- `RateLimiter::can_make_request`: refills, then reports `tokens >= 1.0`.
Returns the answer together with the updated state. -/
def can_make_request (now : ℚ) (s : RateLimiterState) : Bool × RateLimiterState :=
  let s2 := refill_tokens now s
  (decide (1 ≤ s2.tokens), s2)

/-- `RateLimiter::record_request`: no refill; if `tokens >= 1.0`, consume one
token and bump `requests_count`, otherwise leave the state untouched. -/
def record_request (s : RateLimiterState) : RateLimiterState :=
  if 1 ≤ s.tokens then
    { s with tokens := s.tokens - 1, requests_count := s.requests_count + 1 }
  else
    s

/-- `RateLimiter::get_remaining_tokens`: refills, then returns `tokens`
together with the updated state. -/
def get_remaining_tokens (now : ℚ) (s : RateLimiterState) : ℚ × RateLimiterState :=
  let s2 := refill_tokens now s
  (s2.tokens, s2)

end RateLimiter

/-- One public `RateLimiter` operation, tagged with the clock reading it
observes (operations that do not read the clock carry none). -/
inductive RLOp where
  | canMake (now : ℚ)
  | record
  | getRemaining (now : ℚ)
deriving Repr, DecidableEq

/-- Effect of one operation on the guarded state. -/
def RLOp.step : RLOp → RateLimiterState → RateLimiterState
  | .canMake now, s => (RateLimiter.can_make_request now s).2
  | .record, s => RateLimiter.record_request s
  | .getRemaining now, s => (RateLimiter.get_remaining_tokens now s).2

/-- Run a sequence of operations left to right. -/
def runOps : List RLOp → RateLimiterState → RateLimiterState
  | [], s => s
  | op :: rest, s => runOps rest (op.step s)

/-- The token-bucket invariant, together with the sign facts on the constant
configuration fields needed to propagate it. -/
def RateLimiterState.Inv (s : RateLimiterState) : Prop :=
  0 ≤ s.tokens ∧ s.tokens ≤ s.max_tokens ∧ 0 ≤ s.refill_rate

theorem inv_new (t0 : ℚ) : (RateLimiter.new t0).Inv := by
  refine ⟨by norm_num [RateLimiter.new], by norm_num [RateLimiter.new], ?_⟩
  norm_num [RateLimiter.new]

theorem inv_refill (s : RateLimiterState) (now : ℚ) (h : s.Inv) :
    (RateLimiter.refill_tokens now s).Inv := by
  obtain ⟨h0, h1, h2⟩ := h
  refine ⟨?_, ?_, h2⟩
  · have hadd : 0 ≤ max (now - s.last_refill) 0 * s.refill_rate :=
      mul_nonneg (le_max_right _ _) h2
    exact le_min (le_trans h0 h1) (by linarith)
  · exact min_le_left _ _

theorem inv_record (s : RateLimiterState) (h : s.Inv) :
    (RateLimiter.record_request s).Inv := by
  obtain ⟨h0, h1, h2⟩ := h
  unfold RateLimiter.record_request
  split
  · refine ⟨?_, ?_, h2⟩
    · simp only; linarith
    · simp only; linarith
  · exact ⟨h0, h1, h2⟩

theorem inv_step (op : RLOp) (s : RateLimiterState) (h : s.Inv) : (op.step s).Inv := by
  cases op with
  | canMake now => exact inv_refill s now h
  | record => exact inv_record s h
  | getRemaining now => exact inv_refill s now h

theorem inv_runOps (ops : List RLOp) (s : RateLimiterState) (h : s.Inv) :
    (runOps ops s).Inv := by
  induction ops generalizing s with
  | nil => exact h
  | cons op rest ih => exact ih _ (inv_step op s h)

/-- Struct `CacheEntry`: opaque string payload, wall-clock creation time,
and per-entry TTL. -/
structure CacheEntry where
  data : String
  timestamp : ℚ
  ttl : ℚ
deriving Repr, DecidableEq

/-- `CacheEntry::is_expired`: `SystemTime::now().duration_since(timestamp)`
errs when the wall clock reads earlier than `timestamp`, and `unwrap_or(true)`
turns that into "expired"; otherwise the entry is expired iff the elapsed
duration strictly exceeds `ttl`. -/
def CacheEntry.is_expired (now : ℚ) (e : CacheEntry) : Bool :=
  if now < e.timestamp then true else decide (e.ttl < now - e.timestamp)

/-- Struct `Cache`: the guarded mapping (association list with unique keys,
in iteration order) plus the capacity bound. -/
structure Cache where
  entries : List (String × CacheEntry)
  max_size : ℕ
deriving Repr, DecidableEq

/-- `HashMap::get`: first binding for `key`, if any. -/
def lookupEntry (key : String) : List (String × CacheEntry) → Option CacheEntry
  | [] => none
  | (k, e) :: rest => if k = key then some e else lookupEntry key rest

/-- `HashMap::remove`: drop the binding for `key` (under the unique-keys
invariant, filtering equals removing the one binding). -/
def removeKey (key : String) (l : List (String × CacheEntry)) :
    List (String × CacheEntry) :=
  l.filter (fun p => p.1 ≠ key)

namespace Cache

/-- `Cache::new`: the constructor takes no configuration; it hardcodes an
empty mapping and `max_size = 1000`. -/
def new : Cache :=
  { entries := [], max_size := 1000 }

/-- `Cache::get`: if the key is present and unexpired, return a copy of the
payload; if present and expired, remove it and return none; if absent,
return none. The (possibly updated) cache is returned alongside. -/
def get (now : ℚ) (key : String) (c : Cache) : Option String × Cache :=
  match lookupEntry key c.entries with
  | some e =>
      if e.is_expired now = false then (some e.data, c)
      else (none, { c with entries := removeKey key c.entries })
  | none => (none, c)

/-- `Cache::evict_oldest`: remove the first entry in iteration order, if any. -/
def evict_oldest : List (String × CacheEntry) → List (String × CacheEntry)
  | [] => []
  | _ :: rest => rest

/-- `Cache::put`: if the mapping is at (or beyond) capacity, evict one entry
first; then insert/overwrite the binding for `key` with a fresh timestamp
`now` and the fixed 300-second TTL. -/
def put (now : ℚ) (key data : String) (c : Cache) : Cache :=
  let entries1 := if c.max_size ≤ c.entries.length then evict_oldest c.entries
                  else c.entries
  { c with entries := (key, ⟨data, now, 300⟩) :: removeKey key entries1 }

end Cache

/-- Run a sequence of `put` operations left to right; each carries the
wall-clock reading it observes. -/
def runPuts : List (ℚ × String × String) → Cache → Cache
  | [], c => c
  | (now, k, v) :: rest, c => runPuts rest (Cache.put now k v c)

theorem lookupEntry_removeKey (key : String) (l : List (String × CacheEntry)) :
    lookupEntry key (removeKey key l) = none := by
  induction l with
  | nil => rfl
  | cons p rest ih =>
      by_cases h : p.1 = key
      · simpa [removeKey, List.filter, h] using ih
      · simpa [removeKey, List.filter, h, lookupEntry] using ih

theorem removeKey_length_le (key : String) (l : List (String × CacheEntry)) :
    (removeKey key l).length ≤ l.length :=
  List.length_filter_le _ l

theorem evict_oldest_length (l : List (String × CacheEntry)) (h : l ≠ []) :
    (Cache.evict_oldest l).length = l.length - 1 := by
  cases l with
  | nil => exact absurd rfl h
  | cons p rest => simp [Cache.evict_oldest]

theorem put_length_le (now : ℚ) (k v : String) (c : Cache)
    (hsz : 1 ≤ c.max_size) (hle : c.entries.length ≤ c.max_size) :
    (Cache.put now k v c).entries.length ≤ c.max_size := by
  unfold Cache.put
  simp only [List.length_cons]
  by_cases hfull : c.max_size ≤ c.entries.length
  · have hne : c.entries ≠ [] := by
      intro hnil
      rw [hnil] at hfull
      simp at hfull
      omega
    have h1 : (Cache.evict_oldest c.entries).length = c.entries.length - 1 :=
      evict_oldest_length c.entries hne
    have h2 := removeKey_length_le k (Cache.evict_oldest c.entries)
    simp only [hfull, if_true]
    omega
  · have h2 := removeKey_length_le k c.entries
    simp only [hfull, if_false]
    omega

theorem put_max_size (now : ℚ) (k v : String) (c : Cache) :
    (Cache.put now k v c).max_size = c.max_size := rfl

theorem runPuts_bound (puts : List (ℚ × String × String)) (c : Cache)
    (hsz : 1 ≤ c.max_size) (hle : c.entries.length ≤ c.max_size) :
    (runPuts puts c).entries.length ≤ (runPuts puts c).max_size ∧
      (runPuts puts c).max_size = c.max_size := by
  induction puts generalizing c with
  | nil => exact ⟨hle, rfl⟩
  | cons p rest ih =>
      obtain ⟨now, k, v⟩ := p
      have hstep := put_length_le now k v c hsz hle
      have hmax := put_max_size now k v c
      have hrec := ih (Cache.put now k v c) (by omega) (by omega)
      simpa [runPuts, hmax] using hrec

theorem get_of_expired (c : Cache) (now : ℚ) (k : String) (e : CacheEntry)
    (hfound : lookupEntry k c.entries = some e)
    (hexp : e.is_expired now = true) :
    Cache.get now k c = (none, { c with entries := removeKey k c.entries }) := by
  simp [Cache.get, hfound, hexp]

/-- A constructor honoring the spec interface `new(max_tokens, refill_rate)`:
a second definition following the spec's words, for comparison with the
source's nullary `RateLimiter::new`. -/
def RateLimiterSpec.new (mt rr t0 : ℚ) : RateLimiterState :=
  { tokens := mt
    max_tokens := mt
    refill_rate := rr
    last_refill := t0
    requests_count := 0 }

/-- A constructor honoring the spec interface `new(max_size)`: a second
definition following the spec's words, for comparison with the source's
nullary `Cache::new`. -/
def CacheSpec.new (ms : ℕ) : Cache :=
  { entries := [], max_size := ms }

/-- C1: starting from the constructed state, every sequence of public
operations keeps `0 ≤ tokens ≤ max_tokens`, and the invariant also holds
right after one further refill at any instant. -/
theorem C1_token_bound (ops : List RLOp) (t0 now : ℚ) :
    (0 ≤ (runOps ops (RateLimiter.new t0)).tokens ∧
      (runOps ops (RateLimiter.new t0)).tokens
        ≤ (runOps ops (RateLimiter.new t0)).max_tokens) ∧
    (0 ≤ (RateLimiter.refill_tokens now (runOps ops (RateLimiter.new t0))).tokens ∧
      (RateLimiter.refill_tokens now (runOps ops (RateLimiter.new t0))).tokens
        ≤ (RateLimiter.refill_tokens now (runOps ops (RateLimiter.new t0))).max_tokens) := by
  have h := inv_runOps ops (RateLimiter.new t0) (inv_new t0)
  have h2 := inv_refill _ now h
  exact ⟨⟨h.1, h.2.1⟩, h2.1, h2.2.1⟩

/-- C5: `can_make_request` answers true exactly when an immediately following
`record_request` (on the refilled state, with no further time passing)
decrements `tokens` by 1 and increments `requests_count`. -/
theorem C5_admission_consistency (s : RateLimiterState) (now : ℚ) :
    (RateLimiter.can_make_request now s).1 = true ↔
      ((RateLimiter.record_request (RateLimiter.can_make_request now s).2).tokens
          = (RateLimiter.can_make_request now s).2.tokens - 1 ∧
        (RateLimiter.record_request (RateLimiter.can_make_request now s).2).requests_count
          = (RateLimiter.can_make_request now s).2.requests_count + 1) := by
  simp only [RateLimiter.can_make_request, decide_eq_true_eq]
  by_cases h : (1:ℚ) ≤ (RateLimiter.refill_tokens now s).tokens
  · simp [h, RateLimiter.record_request]
  · refine iff_of_false h ?_
    rintro ⟨h1, -⟩
    rw [RateLimiter.record_request, if_neg h] at h1
    linarith

/-- C6: with fewer than 1.0 tokens, `record_request` leaves the whole state
record unchanged (silent no-op, no negative tokens, no error path). -/
theorem C6_insufficient_noop (s : RateLimiterState) (h : s.tokens < 1) :
    RateLimiter.record_request s = s := by
  rw [RateLimiter.record_request, if_neg (by linarith)]

theorem C6_witness :
    ({ tokens := 1/2, max_tokens := 100, refill_rate := 0.83, last_refill := 0,
        requests_count := 7 } : RateLimiterState).tokens < 1 ∧
      RateLimiter.record_request
          { tokens := 1/2, max_tokens := 100, refill_rate := 0.83, last_refill := 0,
            requests_count := 7 }
        = { tokens := 1/2, max_tokens := 100, refill_rate := 0.83, last_refill := 0,
            requests_count := 7 } :=
  ⟨by norm_num, C6_insufficient_noop _ (by norm_num)⟩

/-- C7: with elapsed time `dt ≥ 0` and no intervening consumption, a refill
adds exactly `min (dt * refill_rate) (max_tokens - tokens)` to `tokens` and
sets `last_refill` to the current instant. -/
theorem C7_refill_linearity (s : RateLimiterState) (dt : ℚ) (h : 0 ≤ dt) :
    (RateLimiter.refill_tokens (s.last_refill + dt) s).tokens
        = s.tokens + min (dt * s.refill_rate) (s.max_tokens - s.tokens) ∧
      (RateLimiter.refill_tokens (s.last_refill + dt) s).last_refill
        = s.last_refill + dt := by
  refine ⟨?_, rfl⟩
  show min s.max_tokens (s.tokens + max (s.last_refill + dt - s.last_refill) 0 * s.refill_rate)
      = s.tokens + min (dt * s.refill_rate) (s.max_tokens - s.tokens)
  have h1 : s.last_refill + dt - s.last_refill = dt := by ring
  rw [h1, max_eq_left h]
  rcases le_total (s.tokens + dt * s.refill_rate) s.max_tokens with hc | hc
  · rw [min_eq_right hc, min_eq_left (by linarith)]
  · rw [min_eq_left hc, min_eq_right (by linarith)]
    ring

theorem C7_witness :
    (0:ℚ) ≤ 2 ∧
      ((RateLimiter.refill_tokens ((RateLimiter.new 5).last_refill + 2)
            (RateLimiter.new 5)).tokens
          = (RateLimiter.new 5).tokens
              + min (2 * (RateLimiter.new 5).refill_rate)
                  ((RateLimiter.new 5).max_tokens - (RateLimiter.new 5).tokens) ∧
        (RateLimiter.refill_tokens ((RateLimiter.new 5).last_refill + 2)
              (RateLimiter.new 5)).last_refill
          = (RateLimiter.new 5).last_refill + 2) :=
  ⟨by norm_num, C7_refill_linearity (RateLimiter.new 5) 2 (by norm_num)⟩

/-- C8 counterexample: the source constructors take no configuration, so they
disagree with constructors that honor the spec signatures `new(max_tokens,
refill_rate)` and `new(max_size)` at the concrete configurations
`(50, 1)` and `5`. -/
theorem C8_counterexample :
    RateLimiterSpec.new 50 1 0 ≠ RateLimiter.new 0 ∧ CacheSpec.new 5 ≠ Cache.new := by
  exact ⟨by decide, by decide⟩

/-- C8 (amended): the constructors take no configuration parameters and
produce the hardcoded initial state: `tokens = max_tokens = 100.0`,
`refill_rate = 0.83`, `requests_count = 0`; `max_size = 1000` with an empty
mapping; and `put` stamps every entry with the uniform 300-second TTL. -/
theorem C8_initial_state (t0 now : ℚ) (k v : String) (c : Cache) :
    (RateLimiter.new t0).tokens = 100 ∧
      (RateLimiter.new t0).max_tokens = 100 ∧
      (RateLimiter.new t0).refill_rate = 0.83 ∧
      (RateLimiter.new t0).requests_count = 0 ∧
      Cache.new.max_size = 1000 ∧
      Cache.new.entries = [] ∧
      lookupEntry k (Cache.put now k v c).entries = some ⟨v, now, 300⟩ := by
  refine ⟨rfl, rfl, rfl, rfl, rfl, rfl, ?_⟩
  simp [Cache.put, lookupEntry]

/-- C2: `put k v` at time `t` followed by `get k` at time `t2` with
`0 ≤ t2 - t ≤ 300` returns a copy of the stored payload. -/
theorem C2_roundtrip (c : Cache) (k v : String) (t t2 : ℚ)
    (h1 : t ≤ t2) (h2 : t2 - t ≤ 300) :
    (Cache.get t2 k (Cache.put t k v c)).1 = some v := by
  have hl : lookupEntry k (Cache.put t k v c).entries = some ⟨v, t, 300⟩ := by
    simp [Cache.put, lookupEntry]
  have hexp : CacheEntry.is_expired t2 ⟨v, t, 300⟩ = false := by
    rw [CacheEntry.is_expired]
    simp only
    rw [if_neg (not_lt.mpr h1), decide_eq_false_iff_not]
    intro hgt
    linarith
  simp [Cache.get, hl, hexp]

theorem C2_witness :
    ((0:ℚ) ≤ 0 ∧ (0:ℚ) - 0 ≤ 300) ∧
      (Cache.get 0 "a" (Cache.put 0 "a" "payload" Cache.new)).1 = some "payload" :=
  ⟨⟨le_refl 0, by norm_num⟩,
    C2_roundtrip Cache.new "a" "payload" 0 0 (le_refl 0) (by norm_num)⟩

/-- C3: starting from the empty constructed cache, no sequence of `put`
operations ever leaves the mapping holding more than `max_size = 1000`
entries. -/
theorem C3_capacity_bound (puts : List (ℚ × String × String)) :
    (runPuts puts Cache.new).entries.length ≤ (runPuts puts Cache.new).max_size ∧
      (runPuts puts Cache.new).max_size = 1000 := by
  have h := runPuts_bound puts Cache.new (by norm_num [Cache.new]) (by simp [Cache.new])
  exact ⟨h.1, h.2⟩

/-- C4: `get` on a present-but-expired key removes exactly that binding and
returns none; `get` on an absent key returns none and leaves the cache
unchanged; both cases hand the caller the same answer, none. -/
theorem C4_expired_or_absent (c : Cache) (now : ℚ) (k k2 : String) (e : CacheEntry)
    (hfound : lookupEntry k c.entries = some e)
    (hexp : e.is_expired now = true)
    (habsent : lookupEntry k2 c.entries = none) :
    Cache.get now k c = (none, { c with entries := removeKey k c.entries }) ∧
      lookupEntry k (Cache.get now k c).2.entries = none ∧
      Cache.get now k2 c = (none, c) ∧
      (Cache.get now k c).1 = (Cache.get now k2 c).1 := by
  have hget := get_of_expired c now k e hfound hexp
  have habs : Cache.get now k2 c = (none, c) := by
    simp [Cache.get, habsent]
  refine ⟨hget, ?_, habs, ?_⟩
  · rw [hget]
    exact lookupEntry_removeKey k c.entries
  · rw [hget, habs]

/-- A one-entry cache used to instantiate the expiry theorems. -/
def cacheOneA : Cache :=
  { entries := [("a", { data := "v", timestamp := 0, ttl := 300 })], max_size := 1000 }

theorem C4_witness :
    (lookupEntry "a" cacheOneA.entries
          = some { data := "v", timestamp := 0, ttl := 300 } ∧
        CacheEntry.is_expired 400 { data := "v", timestamp := 0, ttl := 300 } = true ∧
        lookupEntry "b" cacheOneA.entries = none) ∧
      (Cache.get 400 "a" cacheOneA
            = (none, { cacheOneA with entries := removeKey "a" cacheOneA.entries }) ∧
        lookupEntry "a" (Cache.get 400 "a" cacheOneA).2.entries = none ∧
        Cache.get 400 "b" cacheOneA = (none, cacheOneA) ∧
        (Cache.get 400 "a" cacheOneA).1 = (Cache.get 400 "b" cacheOneA).1) :=
  ⟨⟨by decide, by norm_num [CacheEntry.is_expired], by decide⟩,
    C4_expired_or_absent cacheOneA 400 "a" "b"
      { data := "v", timestamp := 0, ttl := 300 } (by decide)
      (by norm_num [CacheEntry.is_expired]) (by decide)⟩

/-- C9: when the wall clock reads strictly earlier than an entry's creation
timestamp, the entry counts as expired: `get` returns none and removes it,
although no TTL duration has elapsed. -/
theorem C9_clock_backwards (c : Cache) (now : ℚ) (k : String) (e : CacheEntry)
    (hfound : lookupEntry k c.entries = some e)
    (hback : now < e.timestamp) :
    e.is_expired now = true ∧
      Cache.get now k c = (none, { c with entries := removeKey k c.entries }) ∧
      lookupEntry k (Cache.get now k c).2.entries = none := by
  have hexp : e.is_expired now = true := by
    rw [CacheEntry.is_expired, if_pos hback]
  have hget := get_of_expired c now k e hfound hexp
  refine ⟨hexp, hget, ?_⟩
  rw [hget]
  exact lookupEntry_removeKey k c.entries

/-- A one-entry cache whose entry was created at wall-clock time 10. -/
def cacheLateA : Cache :=
  { entries := [("a", { data := "v", timestamp := 10, ttl := 300 })], max_size := 1000 }

theorem C9_witness :
    (lookupEntry "a" cacheLateA.entries
          = some { data := "v", timestamp := 10, ttl := 300 } ∧
        (5:ℚ) < ({ data := "v", timestamp := 10, ttl := 300 } : CacheEntry).timestamp) ∧
      (CacheEntry.is_expired 5 { data := "v", timestamp := 10, ttl := 300 } = true ∧
        Cache.get 5 "a" cacheLateA
          = (none, { cacheLateA with entries := removeKey "a" cacheLateA.entries }) ∧
        lookupEntry "a" (Cache.get 5 "a" cacheLateA).2.entries = none) :=
  ⟨⟨by decide, by decide⟩,
    C9_clock_backwards cacheLateA 5 "a"
      { data := "v", timestamp := 10, ttl := 300 } (by decide) (by decide)⟩

/-- The cache filled to capacity with the 1000 distinct keys "0".."999", all
inserted at wall-clock time 0. -/
def fullEntries : List (String × CacheEntry) :=
  (List.range 1000).map (fun i => (toString i, { data := "v", timestamp := 0, ttl := 300 }))

/-- The at-capacity cache state used to exhibit the overwrite-evicts
behavior. -/
def cFull : Cache :=
  { entries := fullEntries, max_size := 1000 }

set_option maxRecDepth 100000

/-- C10: there is a cache state at capacity in which overwriting a key that
is already present evicts a different, live key: the mapping shrinks by one
entry and an unrelated unexpired entry disappears. -/
theorem C10_overwrite_evicts :
    ∃ (c : Cache) (k v m : String),
      m ≠ k ∧
      (∃ e, lookupEntry k c.entries = some e) ∧
      (∃ e, lookupEntry m c.entries = some e ∧ e.is_expired 0 = false) ∧
      lookupEntry m (Cache.put 0 k v c).entries = none ∧
      lookupEntry k (Cache.put 0 k v c).entries
          = some { data := v, timestamp := 0, ttl := 300 } ∧
      (Cache.put 0 k v c).entries.length + 1 = c.entries.length := by
  refine ⟨cFull, "1", "w", "0", by decide, ⟨{ data := "v", timestamp := 0, ttl := 300 }, by decide⟩,
    ⟨{ data := "v", timestamp := 0, ttl := 300 }, by decide,
      by norm_num [CacheEntry.is_expired]⟩, by decide, by decide, by decide⟩

end YahooFantasy
